import Mathlib

/-!
A verification development for the 2D-to-3D structural reconstruction and
scene-geometry pipeline of the moleXa molecular viewer.

Strings from the source are modelled as `List Char`; JavaScript numbers are
modelled as exact rationals (`ℚ`); `Number.parseInt` results are modelled as
`Option ℤ` with `none` standing for `NaN`.  The nondeterministic
`Math.random()` calls and the transcendental `Math.sin` / `Math.cos` /
`Math.sqrt` calls are modelled as explicit functional parameters, so that
every definition below is executable and the structural content of the code
is provable independently of the transcendental functions chosen.
-/

namespace Molexa

/-! ## JavaScript string primitives -/

/-- Whitespace characters recognised by `String.prototype.trim`. -/
def isJsSpace (c : Char) : Bool :=
  c = ' ' || c = '\t' || c = '\n' || c = '\r'

/-- `s.trim()`: strip leading and trailing whitespace. -/
def jsTrim (s : List Char) : List Char :=
  ((s.dropWhile isJsSpace).reverse.dropWhile isJsSpace).reverse

/-- `s.substring(a, b)` for `a ≤ b`: the characters at positions `[a, b)`. -/
def jsSubstring (s : List Char) (a b : ℕ) : List Char :=
  (s.drop a).take (b - a)

/-- Decimal digits of a character run. -/
def leadingDigits (s : List Char) : List Char :=
  s.takeWhile Char.isDigit

/-- Accumulate a decimal digit string into a natural number. -/
def charsToNat (s : List Char) : ℕ :=
  s.foldl (fun acc c => 10 * acc + (c.toNat - 48)) 0

/-- `Number.parseInt(s)` (radix 10): skip whitespace, read an optional sign
and the longest leading digit run; `none` models `NaN`. -/
def jsParseInt (s : List Char) : Option ℤ :=
  let t := s.dropWhile isJsSpace
  match t with
  | '-' :: rest =>
      if leadingDigits rest = [] then none
      else some (-(charsToNat (leadingDigits rest) : ℤ))
  | '+' :: rest =>
      if leadingDigits rest = [] then none
      else some ((charsToNat (leadingDigits rest) : ℤ))
  | _ =>
      if leadingDigits t = [] then none
      else some ((charsToNat (leadingDigits t) : ℤ))

/-! ## Decimal rendering of a natural number

Models the JavaScript number-to-string conversion used by the template
literal that builds atom ids. -/

/-- The character of a decimal digit. -/
def digitChar (d : ℕ) : Char := Char.ofNat (48 + d)

/-- Decimal digits of `n`, most significant first; `fuel` bounds recursion. -/
def natReprAux : ℕ → ℕ → List Char
  | 0, _ => []
  | _ + 1, 0 => []
  | fuel + 1, n + 1 => natReprAux fuel ((n + 1) / 10) ++ [digitChar ((n + 1) % 10)]

/-- Decimal string of a natural number (`${n}` in a template literal). -/
def natRepr (n : ℕ) : List Char :=
  if n = 0 then ['0'] else natReprAux n n

theorem charsToNat_append (xs ys : List Char) :
    charsToNat (xs ++ ys) = ys.foldl (fun acc c => 10 * acc + (c.toNat - 48)) (charsToNat xs) := by
  simp [charsToNat, List.foldl_append]

theorem digitChar_toNat {d : ℕ} (h : d < 10) : (digitChar d).toNat - 48 = d := by
  interval_cases d <;> decide

theorem charsToNat_natReprAux {fuel n : ℕ} (h : n ≤ fuel) :
    charsToNat (natReprAux fuel n) = n := by
  induction fuel generalizing n with
  | zero =>
      interval_cases n
      simp [natReprAux, charsToNat]
  | succ fuel ih =>
      match n with
      | 0 => simp [natReprAux, charsToNat]
      | n + 1 =>
          have hdiv : (n + 1) / 10 ≤ fuel := by
            have h1 : (n + 1) / 10 < n + 1 := Nat.div_lt_self (Nat.succ_pos n) (by omega)
            omega
          have hrec := ih hdiv
          have hmod : (n + 1) % 10 < 10 := Nat.mod_lt _ (by omega)
          calc charsToNat (natReprAux (fuel + 1) (n + 1))
              = charsToNat (natReprAux fuel ((n + 1) / 10) ++ [digitChar ((n + 1) % 10)]) := by
                rfl
            _ = 10 * ((n + 1) / 10) + ((n + 1) % 10) := by
                rw [charsToNat_append, hrec]
                simp [List.foldl, digitChar_toNat hmod]
            _ = n + 1 := by omega

/-- `charsToNat` is a left inverse of `natRepr`. -/
theorem charsToNat_natRepr (n : ℕ) : charsToNat (natRepr n) = n := by
  by_cases h : n = 0
  · subst h; decide
  · rw [natRepr, if_neg h]
    exact charsToNat_natReprAux le_rfl

/-- Decimal strings determine their numbers. -/
theorem natRepr_injective : Function.Injective natRepr := by
  intro m n h
  have := charsToNat_natRepr m
  rw [h, charsToNat_natRepr] at this
  omega

theorem mem_natReprAux_digit {fuel n : ℕ} {c : Char} (h : c ∈ natReprAux fuel n) :
    ∃ d, d < 10 ∧ c = digitChar d := by
  induction fuel generalizing n with
  | zero => simp [natReprAux] at h
  | succ fuel ih =>
      match n with
      | 0 => simp [natReprAux] at h
      | n + 1 =>
          rw [natReprAux, List.mem_append] at h
          rcases h with h | h
          · exact ih h
          · refine ⟨(n + 1) % 10, Nat.mod_lt _ (by omega), ?_⟩
            simpa using h

/-- The decimal string of a natural number never contains a dash. -/
theorem dash_not_mem_natRepr (n : ℕ) : '-' ∉ natRepr n := by
  intro hmem
  by_cases h : n = 0
  · subst h; simp [natRepr] at hmem
  · rw [natRepr, if_neg h] at hmem
    obtain ⟨d, hd, hc⟩ := mem_natReprAux_digit hmem
    interval_cases d <;> simp [digitChar] at hc

/-! ## Atom id assignment

From `parseSDF2DTo3D`: every atom gets the id `` `${element}-${count + 1}` ``
where `count` is the number of earlier atoms with the same element symbol
(`elementCounts[element] || 0`). -/

/-- The id-assignment fold, carrying the `elementCounts` table. -/
def elementIdsGo (counts : List Char → ℕ) : List (List Char) → List (List Char)
  | [] => []
  | e :: rest =>
      (e ++ '-' :: natRepr (counts e + 1)) ::
        elementIdsGo (fun x => if x = e then counts e + 1 else counts x) rest

/-- Ids assigned to a file-ordered list of element symbols. -/
def elementIds (elems : List (List Char)) : List (List Char) :=
  elementIdsGo (fun _ => 0) elems

/-- The element symbol of an atom line: `atomLine.substring(31, 34).trim()`. -/
def parseAtomElement (line : List Char) : List Char :=
  jsTrim (jsSubstring line 31 34)

theorem elementIdsGo_length (counts : List Char → ℕ) (l : List (List Char)) :
    (elementIdsGo counts l).length = l.length := by
  induction l generalizing counts with
  | nil => rfl
  | cons e rest ih => simp [elementIdsGo, ih]

theorem elementIdsGo_get? (counts : List Char → ℕ) (l : List (List Char)) (i : ℕ) :
    (elementIdsGo counts l).get? i =
      (l.get? i).map (fun e => e ++ '-' :: natRepr (counts e + (l.take (i + 1)).count e)) := by
  induction l generalizing counts i with
  | nil => simp [elementIdsGo]
  | cons a rest ih =>
      match i with
      | 0 => simp [elementIdsGo, List.count_cons]
      | i + 1 =>
          rw [elementIdsGo]
          simp only [List.get?_cons_succ, List.take_succ_cons]
          rw [ih]
          cases hrest : rest.get? i with
          | none => simp
          | some e =>
              have hXY : (if e = a then counts a + 1 else counts e) + ((rest.take (i + 1)).count e)
                  = counts e + ((a :: rest.take (i + 1)).count e) := by
                by_cases he : e = a
                · subst he
                  simp [List.count_cons]
                  omega
                · simp [List.count_cons, he]
              simp [hXY]

/-- The run of characters after the last dash. -/
def afterLastDash (l : List Char) : List Char :=
  (l.reverse.takeWhile (fun c => c ≠ '-')).reverse

theorem takeWhile_append_of_all {p : Char → Bool} {xs : List Char} {y : Char}
    (hxs : ∀ x ∈ xs, p x = true) (hy : p y = false) (ys : List Char) :
    (xs ++ y :: ys).takeWhile p = xs := by
  induction xs with
  | nil => simp [List.takeWhile, hy]
  | cons x xs ih =>
      have hx : p x = true := hxs x (by simp)
      simp only [List.cons_append, List.takeWhile_cons, hx]
      simp only [if_true]
      rw [ih (fun z hz => hxs z (by simp [hz]))]

theorem afterLastDash_append (a : List Char) {b : List Char} (hb : '-' ∉ b) :
    afterLastDash (a ++ '-' :: b) = b := by
  unfold afterLastDash
  rw [List.reverse_append, List.reverse_cons, List.append_assoc]
  simp only [List.singleton_append]
  have hall : ∀ x ∈ b.reverse, (fun c => decide (c ≠ '-')) x = true := by
    intro x hx
    simp only [decide_eq_true_eq]
    intro hcontra
    exact hb (by simpa [hcontra] using List.mem_reverse.mp hx)
  rw [takeWhile_append_of_all hall (by simp) _]
  simp

/-- Splitting `a ++ "-" ++ b` at its last dash is unambiguous when `b` is
dash-free. -/
theorem append_dash_inj {a b c d : List Char} (hb : '-' ∉ b) (hd : '-' ∉ d)
    (h : a ++ '-' :: b = c ++ '-' :: d) : a = c ∧ b = d := by
  have hbd : b = d := by
    have h1 := afterLastDash_append a hb
    rw [h, afterLastDash_append c hd] at h1
    exact h1.symm
  subst hbd
  refine ⟨?_, rfl⟩
  have hlen : a.length = c.length := by
    have := congrArg List.length h
    simp at this
    omega
  exact (List.append_inj h (by simpa using hlen)).1

theorem count_take_lt_count_take {l : List (List Char)} {i j : ℕ} (hij : i < j)
    (hj : j < l.length) :
    (l.take (i + 1)).count (l.get ⟨j, hj⟩) < (l.take (j + 1)).count (l.get ⟨j, hj⟩) := by
  set e := l.get ⟨j, hj⟩ with he
  have htkj : l.take (j + 1) = l.take j ++ [e] := by
    rw [List.take_succ, List.getElem?_eq_getElem hj]
    simp [he, List.get_eq_getElem]
  have h1 : (l.take (i + 1)).count e ≤ (l.take j).count e := by
    have heq : (l.take j).take (i + 1) = l.take (i + 1) := by
      rw [List.take_take]
      congr 1
      omega
    calc (l.take (i + 1)).count e = ((l.take j).take (i + 1)).count e := by rw [heq]
      _ ≤ (l.take j).count e := (List.take_sublist _ _).count_le e
  rw [htkj, List.count_append]
  simp [List.count_cons]
  omega

theorem elementIds_length (elems : List (List Char)) :
    (elementIds elems).length = elems.length :=
  elementIdsGo_length _ _

theorem elementIds_get? (elems : List (List Char)) (i : ℕ) :
    (elementIds elems).get? i =
      (elems.get? i).map (fun e => e ++ '-' :: natRepr ((elems.take (i + 1)).count e)) := by
  rw [elementIds, elementIdsGo_get?]
  simp

theorem elementIds_nodup (elems : List (List Char)) : (elementIds elems).Nodup := by
  rw [List.nodup_iff_get?_ne_get?]
  intro i j hij hjlen heq
  rw [elementIds_length] at hjlen
  have hilen : i < elems.length := lt_trans hij hjlen
  rw [elementIds_get?, elementIds_get?, List.get?_eq_get hilen, List.get?_eq_get hjlen] at heq
  simp only [Option.map_some', Option.some.injEq] at heq
  obtain ⟨hel, hnum⟩ :=
    append_dash_inj (dash_not_mem_natRepr _) (dash_not_mem_natRepr _) heq
  have hc := natRepr_injective hnum
  rw [hel] at hc
  have hlt := count_take_lt_count_take hij hjlen (l := elems)
  omega

/-- C6 (confirmed): in every parsed atom list the assigned ids are pairwise
distinct, and the id at file position `i` is the element symbol followed by
a dash and the 1-based occurrence count of that element among positions
`0..i`. -/
theorem elementIds_unique_and_formatted (elems : List (List Char)) :
    (elementIds elems).Nodup ∧
      ∀ i : ℕ, (elementIds elems).get? i =
        (elems.get? i).map (fun e => e ++ '-' :: natRepr ((elems.take (i + 1)).count e)) :=
  ⟨elementIds_nodup elems, fun i => elementIds_get? elems i⟩

/-! ## Bond parsing

From the bond loop of `parseSDF2DTo3D`: each bond line is split into two
fixed-width 1-based atom indices and a bond-order code; short or missing
lines are skipped, out-of-range indices drop the bond, and the order code
is normalised to single/double/triple. -/

inductive BondType where
  | single
  | double
  | triple
deriving DecidableEq

/-- An atom as built by the atom loop: display id, element symbol and
parsed coordinates. -/
structure PAtom where
  id : List Char
  element : List Char
  x : ℚ
  y : ℚ
  z : ℚ
deriving DecidableEq

/-- A bond of the output model: endpoints are atom ids, not indices. -/
structure Bond where
  atom1 : List Char
  atom2 : List Char
  type : BondType
deriving DecidableEq

/-- Normalisation of the bond-order code: `2` is double, `3` is triple and
everything else — including `NaN` (`none`) — stays single. -/
def bondTypeFromCode : Option ℤ → BondType
  | some 2 => .double
  | some 3 => .triple
  | _ => .single

/-- One iteration of the bond loop: parse the two 1-based endpoint indices
and the order code from a bond line; `none` when the line is shorter than 9
characters or an endpoint index is out of range (a `NaN` index fails the
range test exactly as in the source). -/
def parseBondLine (atoms : List PAtom) (line : List Char) : Option Bond :=
  if line.length < 9 then none
  else
    match jsParseInt (jsTrim (jsSubstring line 0 3)),
          jsParseInt (jsTrim (jsSubstring line 3 6)) with
    | some n1, some n2 =>
        let atom1Index : ℤ := n1 - 1
        let atom2Index : ℤ := n2 - 1
        if 0 ≤ atom1Index ∧ atom1Index < (atoms.length : ℤ) ∧
            0 ≤ atom2Index ∧ atom2Index < (atoms.length : ℤ) then
          match atoms.get? atom1Index.toNat, atoms.get? atom2Index.toNat with
          | some u, some v =>
              some { atom1 := u.id, atom2 := v.id,
                     type := bondTypeFromCode (jsParseInt (jsTrim (jsSubstring line 6 9))) }
          | _, _ => none
        else none
    | _, _ => none

/-- The bond loop: iterate `bondCount` times from `bondStartLine`, skipping
missing lines (`!bondLine`) and lines rejected by `parseBondLine`. -/
def parseBonds (atoms : List PAtom) (lines : List (List Char))
    (bondStartLine bondCount : ℕ) : List Bond :=
  (List.range bondCount).filterMap fun i =>
    match lines.get? (bondStartLine + i) with
    | none => none
    | some line => parseBondLine atoms line

theorem parseBondLine_mem_ids {atoms : List PAtom} {line : List Char} {b : Bond}
    (h : parseBondLine atoms line = some b) :
    b.atom1 ∈ atoms.map PAtom.id ∧ b.atom2 ∈ atoms.map PAtom.id := by
  unfold parseBondLine at h
  split at h
  · exact absurd h (by simp)
  · split at h
    · rename_i n1 n2 heq1 heq2
      dsimp only at h
      split at h
      · split at h
        · rename_i u v hu hv
          simp only [Option.some.injEq] at h
          subst h
          constructor
          · exact List.mem_map.mpr ⟨u, List.get?_mem hu, rfl⟩
          · exact List.mem_map.mpr ⟨v, List.get?_mem hv, rfl⟩
        · exact absurd h (by simp)
      · exact absurd h (by simp)
    · exact absurd h (by simp)

theorem parseBondLine_short {atoms : List PAtom} {line : List Char}
    (h : line.length < 9) : parseBondLine atoms line = none := by
  simp [parseBondLine, h]

theorem parseBondLine_index1_out {atoms : List PAtom} {line : List Char} {n1 : ℤ}
    (h1 : jsParseInt (jsTrim (jsSubstring line 0 3)) = some n1)
    (hout : ¬(0 ≤ n1 - 1 ∧ n1 - 1 < (atoms.length : ℤ))) :
    parseBondLine atoms line = none := by
  unfold parseBondLine
  split
  · rfl
  · rw [h1]
    cases h2 : jsParseInt (jsTrim (jsSubstring line 3 6)) with
    | none => rfl
    | some n2 =>
        dsimp only
        rw [if_neg (by tauto)]

theorem parseBondLine_index2_out {atoms : List PAtom} {line : List Char} {n2 : ℤ}
    (h2 : jsParseInt (jsTrim (jsSubstring line 3 6)) = some n2)
    (hout : ¬(0 ≤ n2 - 1 ∧ n2 - 1 < (atoms.length : ℤ))) :
    parseBondLine atoms line = none := by
  unfold parseBondLine
  split
  · rfl
  · rw [h2]
    cases h1 : jsParseInt (jsTrim (jsSubstring line 0 3)) with
    | none => rfl
    | some n1 =>
        dsimp only
        rw [if_neg (by tauto)]

theorem mem_parseBonds {atoms : List PAtom} {lines : List (List Char)}
    {bondStartLine bondCount : ℕ} {b : Bond}
    (h : b ∈ parseBonds atoms lines bondStartLine bondCount) :
    ∃ line, parseBondLine atoms line = some b := by
  unfold parseBonds at h
  obtain ⟨i, _, hi⟩ := List.mem_filterMap.mp h
  cases hline : lines.get? (bondStartLine + i) with
  | none => rw [hline] at hi; exact absurd hi (by simp)
  | some line => rw [hline] at hi; exact ⟨line, hi⟩

/-- C5 (confirmed): every bond of the output references two existing atom
ids; bond lines shorter than 9 characters are skipped, and a bond line
whose first or second 1-based endpoint index falls outside the valid atom
range after the `- 1` conversion — index 0 becomes `-1` — is silently
dropped.  All the functions involved are total, so no parse aborts. -/
theorem parseBonds_referential_integrity (atoms : List PAtom) (lines : List (List Char))
    (bondStartLine bondCount : ℕ) :
    (∀ b ∈ parseBonds atoms lines bondStartLine bondCount,
        b.atom1 ∈ atoms.map PAtom.id ∧ b.atom2 ∈ atoms.map PAtom.id) ∧
    (∀ line : List Char, line.length < 9 → parseBondLine atoms line = none) ∧
    (∀ (line : List Char) (n1 : ℤ), jsParseInt (jsTrim (jsSubstring line 0 3)) = some n1 →
        ¬(0 ≤ n1 - 1 ∧ n1 - 1 < (atoms.length : ℤ)) → parseBondLine atoms line = none) ∧
    (∀ (line : List Char) (n2 : ℤ), jsParseInt (jsTrim (jsSubstring line 3 6)) = some n2 →
        ¬(0 ≤ n2 - 1 ∧ n2 - 1 < (atoms.length : ℤ)) → parseBondLine atoms line = none) := by
  refine ⟨?_, ?_, ?_, ?_⟩
  · intro b hb
    obtain ⟨line, hline⟩ := mem_parseBonds hb
    exact parseBondLine_mem_ids hline
  · intro line h
    exact parseBondLine_short h
  · intro line n1 h1 hout
    exact parseBondLine_index1_out h1 hout
  · intro line n2 h2 hout
    exact parseBondLine_index2_out h2 hout

/-- C4 (confirmed): bond-order code 2 maps to double, 3 to triple, and every
other parse result — other integers or `NaN` — maps to single; the type
stored on a parsed bond is exactly this normalisation of the order field,
so every output bond is single, double or triple. -/
theorem bondType_normalization :
    bondTypeFromCode (some 2) = .double ∧
    bondTypeFromCode (some 3) = .triple ∧
    (∀ c : Option ℤ, c ≠ some 2 → c ≠ some 3 → bondTypeFromCode c = .single) ∧
    (∀ (atoms : List PAtom) (line : List Char) (b : Bond),
        parseBondLine atoms line = some b →
        b.type = bondTypeFromCode (jsParseInt (jsTrim (jsSubstring line 6 9)))) := by
  refine ⟨rfl, rfl, ?_, ?_⟩
  · intro c h2 h3
    unfold bondTypeFromCode
    split
    · simp_all
    · simp_all
    · rfl
  · intro atoms line b h
    unfold parseBondLine at h
    split at h
    · exact absurd h (by simp)
    · split at h
      · dsimp only at h
        split at h
        · split at h
          · simp only [Option.some.injEq] at h
            subst h
            rfl
          · exact absurd h (by simp)
        · exact absurd h (by simp)
      · exact absurd h (by simp)

/-- C4 witness: concrete instances of the normalisation, including code 0,
code 4, a negative code, a non-numeric field, and a concrete parsed line. -/
theorem bondType_normalization_witness :
    bondTypeFromCode (some 0) = .single ∧
    bondTypeFromCode (some 4) = .single ∧
    bondTypeFromCode (some (-2)) = .single ∧
    bondTypeFromCode none = .single := by
  refine ⟨?_, ?_, ?_, ?_⟩
  · exact bondType_normalization.2.2.1 (some 0) (by decide) (by decide)
  · exact bondType_normalization.2.2.1 (some 4) (by decide) (by decide)
  · exact bondType_normalization.2.2.1 (some (-2)) (by decide) (by decide)
  · exact bondType_normalization.2.2.1 none (by decide) (by decide)

/-- Two-atom molecule used for the concrete bond-line scenarios. -/
def twoAtoms : List PAtom :=
  [{ id := ['C', '-', '1'], element := ['C'], x := 0, y := 0, z := 0 },
   { id := ['O', '-', '1'], element := ['O'], x := 1, y := 0, z := 0 }]

/-- C5 witness: the guarantees instantiated on a concrete molecule — a bond
produced from a valid line references existing ids, a 7-character line is
skipped, and the `0`-index line (which converts to `-1`) is dropped. -/
theorem parseBonds_referential_integrity_witness :
    (([' ', ' ', '1', ' ', ' ', '2', ' ', ' ', '1'] : List Char).length < 9 → False) ∧
    parseBondLine twoAtoms [' ', ' ', '1', ' ', ' ', '2', ' '] = none ∧
    parseBondLine twoAtoms [' ', ' ', '0', ' ', ' ', '2', ' ', ' ', '1'] = none ∧
    parseBondLine twoAtoms [' ', ' ', '1', ' ', ' ', '9', ' ', ' ', '1'] = none ∧
    (∀ b ∈ parseBonds twoAtoms [[' ', ' ', '1', ' ', ' ', '2', ' ', ' ', '1']] 0 1,
        b.atom1 ∈ twoAtoms.map PAtom.id ∧ b.atom2 ∈ twoAtoms.map PAtom.id) := by
  refine ⟨by decide, ?_, ?_, ?_, ?_⟩
  · exact (parseBonds_referential_integrity twoAtoms [] 0 0).2.1 _ (by decide)
  · exact (parseBonds_referential_integrity twoAtoms [] 0 0).2.2.1 _ 0 (by decide) (by decide)
  · exact (parseBonds_referential_integrity twoAtoms [] 0 0).2.2.2 _ 9 (by decide) (by decide)
  · exact (parseBonds_referential_integrity twoAtoms
      [[' ', ' ', '1', ' ', ' ', '2', ' ', ' ', '1']] 0 1).1

/-- C9 (confirmed): the parser has no self-bond check — a bond line whose
two in-range 1-based endpoint indices are equal passes the bounds
validation and is appended, producing a bond whose two endpoint ids are
the same atom id. -/
theorem parseBonds_keeps_self_bond :
    parseBonds twoAtoms [[' ', ' ', '1', ' ', ' ', '1', ' ', ' ', '2']] 0 1 =
      [{ atom1 := ['C', '-', '1'], atom2 := ['C', '-', '1'], type := .double }] ∧
    ∃ b ∈ parseBonds twoAtoms [[' ', ' ', '1', ' ', ' ', '1', ' ', ' ', '2']] 0 1,
      b.atom1 = b.atom2 := by
  constructor
  · decide
  · decide

/-! ## 2D-to-3D z synthesis

From the `is2D` branch of `parseSDF2DTo3D`.  `Math.sin`, `Math.cos` and the
per-atom `Math.random()` draw are supplied as parameters (each branch of the
source calls `Math.random()` at most once per atom, so the draw is indexed
by the atom's file index).  The source walks `atoms.forEach` and assigns
`atom.position[2]` in place, so later atoms read already-updated
positions. -/

structure SynthParams where
  sin : ℚ → ℚ
  cos : ℚ → ℚ
  rand : ℕ → ℚ

/-- `connectedIndices.map(i => atoms[i])` against the current atom array. -/
def neighborsOf (conn : ℕ → List ℕ) (cur : List PAtom) (index : ℕ) : List PAtom :=
  (conn index).filterMap fun i => cur.get? i

/-- The generic fallback for elements other than C, N, O, H
(`// Other elements`). -/
def genericZ (p : SynthParams) (x y : ℚ) (index : ℕ) : ℚ :=
  p.sin (x * 1.7 + y * 1.4) * 0.6 + (p.rand index - 0.5) * 0.4

/-- The element/degree if-chain computing the base z offset of one atom.
The `|| 0` on the hydrogen partner's z is the identity on rationals. -/
def baseZ (p : SynthParams) (conn : ℕ → List ℕ) (cur : List PAtom)
    (index : ℕ) (atom : PAtom) : ℚ :=
  let neighbors := neighborsOf conn cur index
  let x := atom.x
  let y := atom.y
  if atom.element = ['C'] then
    if neighbors.length = 4 then
      (p.sin (x * 2.1) * p.cos (y * 1.7)) * 1.2 + (p.rand index - 0.5) * 0.3
    else if neighbors.length = 3 then
      p.sin (x * 1.5 + y * 1.5) * 0.4
    else if neighbors.length = 2 then
      (if index % 2 = 0 then 0.3 else -0.3) + p.sin (x + y) * 0.2
    else 0
  else if atom.element = ['N'] then
    if neighbors.length = 3 then
      p.sin (x * 1.8 + y * 1.3) * 0.8 + 0.3
    else if neighbors.length = 2 then
      p.cos (x * 1.4 + y * 2.1) * 0.5
    else 0
  else if atom.element = ['O'] then
    if neighbors.length = 2 then
      p.sin (x * 2.3 + y * 1.9) * 0.6
    else if neighbors.length = 1 then
      p.cos (x * 1.6 + y * 2.4) * 0.8
    else 0
  else if atom.element = ['H'] then
    if neighbors.length = 1 then
      (match neighbors with
       | partner :: _ => partner.z
       | [] => 0) + (p.rand index - 0.5) * 0.8
    else 0
  else
    genericZ p x y index

/-- One atom's synthesized z: base offset, ring-strain term for degree ≥ 2,
then the `* 1.4` enhancement. -/
def computeNewZ (p : SynthParams) (conn : ℕ → List ℕ) (cur : List PAtom)
    (index : ℕ) (atom : PAtom) : ℚ :=
  let z := baseZ p conn cur index atom
  let z := if 2 ≤ (neighborsOf conn cur index).length then
    z + p.sin ((index : ℚ) * 0.9) * 0.3 else z
  z * 1.4

/-- One `forEach` iteration: overwrite `atom.position[2]` at `i`. -/
def zStep (p : SynthParams) (conn : ℕ → List ℕ) (cur : List PAtom) (i : ℕ) : List PAtom :=
  match cur.get? i with
  | none => cur
  | some a => cur.set i { a with z := computeNewZ p conn cur i a }

/-- The in-place `atoms.forEach` sweep of the source: each step reads the
partially-updated array. -/
def synthZ (p : SynthParams) (conn : ℕ → List ℕ) (atoms : List PAtom) : List PAtom :=
  (List.range atoms.length).foldl (zStep p conn) atoms

/-- The per-atom-independent synthesis asserted by the specification: every
atom's z is computed from the original parsed array only.  (This is the
spec's reading, kept for comparison with `synthZ`.) -/
def synthZIndep (p : SynthParams) (conn : ℕ → List ℕ) (atoms : List PAtom) : List PAtom :=
  atoms.mapIdx fun i a => { a with z := computeNewZ p conn atoms i a }

/-- The reconstruction trigger: `maxZ < 0.1` where `maxZ` is the largest
`|z|`; for every atom list this is `∀ atom, |z| < 0.1`. -/
def is2D (atoms : List PAtom) : Bool :=
  atoms.all fun a => decide (|a.z| < 1 / 10)

/-- The element/degree pairs listed with their own formulas. -/
def listedCase (el : List Char) (deg : ℕ) : Bool :=
  (el = ['C'] && (deg = 4 || deg = 3 || deg = 2)) ||
  (el = ['N'] && (deg = 3 || deg = 2)) ||
  (el = ['O'] && (deg = 2 || deg = 1)) ||
  (el = ['H'] && deg = 1)

/-- Trigonometric instantiation with `sin 0 = 0`, `cos 0 = 1` and a jitter
draw of exactly `0.5` (no displacement), matching the real functions at the
points where the concrete molecules below evaluate them. -/
def flatParams : SynthParams :=
  { sin := fun _ => 0, cos := fun _ => 1, rand := fun _ => 1 / 2 }

/-- Adjacency of a single O–H bond (atom 0 bonded to atom 1). -/
def ohConn : ℕ → List ℕ :=
  fun i => if i = 0 then [1] else if i = 1 then [0] else []

/-- A flat two-atom molecule: an oxygen followed by a hydrogen. -/
def ohAtoms : List PAtom :=
  [{ id := ['O', '-', '1'], element := ['O'], x := 0, y := 0, z := 0 },
   { id := ['H', '-', '1'], element := ['H'], x := 1, y := 0, z := 0 }]

/-- C1 counterexample: on a flat O–H input the in-place sweep differs from
the per-atom-independent synthesis — the hydrogen (file index 1) reads its
partner's already-synthesized z (`0.8 * 1.4 = 1.12`), giving `1.568`,
whereas independent synthesis would read the parsed `z = 0` and give `0`. -/
theorem synthZ_not_independent :
    is2D ohAtoms = true ∧
    synthZ flatParams ohConn ohAtoms ≠ synthZIndep flatParams ohConn ohAtoms ∧
    ((synthZ flatParams ohConn ohAtoms).get? 1).map PAtom.z = some (196 / 125) ∧
    ((synthZIndep flatParams ohConn ohAtoms).get? 1).map PAtom.z = some 0 := by
  refine ⟨by with_unfolding_all decide, by with_unfolding_all decide,
    by with_unfolding_all decide, by with_unfolding_all decide⟩

/-- The state after the first `k` iterations of the sweep. -/
def synthUpTo (p : SynthParams) (conn : ℕ → List ℕ) (atoms : List PAtom) (k : ℕ) : List PAtom :=
  (List.range k).foldl (zStep p conn) atoms

theorem zStep_length (p : SynthParams) (conn : ℕ → List ℕ) (cur : List PAtom) (i : ℕ) :
    (zStep p conn cur i).length = cur.length := by
  unfold zStep
  cases h : cur.get? i <;> simp

theorem synthUpTo_succ (p : SynthParams) (conn : ℕ → List ℕ) (atoms : List PAtom) (k : ℕ) :
    synthUpTo p conn atoms (k + 1) = zStep p conn (synthUpTo p conn atoms k) k := by
  unfold synthUpTo
  rw [List.range_succ, List.foldl_append]
  rfl

theorem synthUpTo_length (p : SynthParams) (conn : ℕ → List ℕ) (atoms : List PAtom) (k : ℕ) :
    (synthUpTo p conn atoms k).length = atoms.length := by
  induction k with
  | zero => rfl
  | succ k ih => rw [synthUpTo_succ, zStep_length, ih]

theorem zStep_get?_ne (p : SynthParams) (conn : ℕ → List ℕ) (cur : List PAtom)
    {i j : ℕ} (h : i ≠ j) : (zStep p conn cur i).get? j = cur.get? j := by
  unfold zStep
  cases hc : cur.get? i with
  | none => rfl
  | some a => exact List.get?_set_ne _ _ h

/-- Entries below the cursor are final: steps at or beyond `k` never touch
an index smaller than `k`. -/
theorem synthUpTo_get?_stable (p : SynthParams) (conn : ℕ → List ℕ) (atoms : List PAtom)
    {j k m : ℕ} (hjk : j < k) (hkm : k ≤ m) :
    (synthUpTo p conn atoms m).get? j = (synthUpTo p conn atoms k).get? j := by
  induction m with
  | zero =>
      have : k = 0 := by omega
      rw [this]
  | succ m ih =>
      by_cases hk : k = m + 1
      · rw [hk]
      · have hk2 : k ≤ m := by omega
        rw [synthUpTo_succ, zStep_get?_ne p conn _ (by omega : m ≠ j), ih hk2]

/-- The sweep only rewrites the z field: the atom at `i` keeps its id,
element, x and y through every prefix of the sweep. -/
theorem synthUpTo_get?_shape (p : SynthParams) (conn : ℕ → List ℕ) (atoms : List PAtom)
    (k i : ℕ) (ai : PAtom) (hai : atoms.get? i = some ai) :
    ∃ q, (synthUpTo p conn atoms k).get? i = some { ai with z := q } := by
  induction k with
  | zero => exact ⟨ai.z, hai⟩
  | succ k ih =>
      obtain ⟨q, hq⟩ := ih
      rw [synthUpTo_succ]
      unfold zStep
      by_cases hik : k = i
      · subst hik
        rw [hq]
        have hlen : k < (synthUpTo p conn atoms k).length := by
          rw [synthUpTo_length]
          exact (List.get?_eq_some.mp hai).1
        exact ⟨computeNewZ p conn (synthUpTo p conn atoms k) k { ai with z := q },
          by rw [List.get?_set_eq_of_lt _ hlen]⟩
      · cases hck : (synthUpTo p conn atoms k).get? k with
        | none => exact ⟨q, hq⟩
        | some c => exact ⟨q, by rw [List.get?_set_ne _ _ hik]; exact hq⟩

/-- C1 amended: positions are overwritten in place during the sweep, so
atoms later in file order observe the synthesized z of earlier atoms.  In
particular a hydrogen with exactly one neighbor earlier in file order reads
its partner's final synthesized z (not the parsed one) and adds the bounded
jitter, the whole scaled by 1.4. -/
theorem synthZ_hydrogen_reads_synthesized_partner
    (p : SynthParams) (conn : ℕ → List ℕ) (atoms : List PAtom)
    (i j : ℕ) (ai : PAtom)
    (hai : atoms.get? i = some ai)
    (hH : ai.element = ['H'])
    (hconn : conn i = [j])
    (hji : j < i) :
    ((synthZ p conn atoms).get? i).map PAtom.z =
      ((synthZ p conn atoms).get? j).map
        (fun partner => (partner.z + (p.rand i - 0.5) * 0.8) * 1.4) := by
  have hi : i < atoms.length := (List.get?_eq_some.mp hai).1
  have hj : j < atoms.length := lt_trans hji hi
  obtain ⟨aj, haj⟩ : ∃ aj, atoms.get? j = some aj := ⟨_, List.get?_eq_get hj⟩
  obtain ⟨qi, hqi⟩ := synthUpTo_get?_shape p conn atoms i i ai hai
  obtain ⟨qj, hqj⟩ := synthUpTo_get?_shape p conn atoms i j aj haj
  have hnb : neighborsOf conn (synthUpTo p conn atoms i) i = [{ aj with z := qj }] := by
    unfold neighborsOf
    rw [hconn]
    have hqj2 : (synthUpTo p conn atoms i)[j]? = some { aj with z := qj } := by
      rw [← List.get?_eq_getElem?]
      exact hqj
    simp [hqj2]
  have hfin : synthZ p conn atoms = synthUpTo p conn atoms atoms.length := rfl
  have hfi : (synthZ p conn atoms).get? i = (synthUpTo p conn atoms (i + 1)).get? i := by
    rw [hfin]
    exact synthUpTo_get?_stable p conn atoms (Nat.lt_succ_self i) hi
  have hfj : (synthZ p conn atoms).get? j = (synthUpTo p conn atoms i).get? j := by
    rw [hfin]
    exact synthUpTo_get?_stable p conn atoms hji (le_of_lt hi)
  have hlen : i < (synthUpTo p conn atoms i).length := by
    rw [synthUpTo_length]
    exact hi
  have hzi : (synthUpTo p conn atoms (i + 1)).get? i =
      some { ai with
        z := computeNewZ p conn (synthUpTo p conn atoms i) i { ai with z := qi } } := by
    rw [synthUpTo_succ]
    unfold zStep
    rw [hqi, List.get?_set_eq_of_lt _ hlen]
  have hcz : computeNewZ p conn (synthUpTo p conn atoms i) i { ai with z := qi } =
      (qj + (p.rand i - 0.5) * 0.8) * 1.4 := by
    unfold computeNewZ baseZ
    rw [hnb]
    simp [hH]
  rw [hfi, hzi, hfj, hqj, hcz]
  simp

/-- C1 amended witness: the hydrogen of the concrete flat O–H molecule ends
at its partner's synthesized z plus jitter, times 1.4. -/
theorem synthZ_hydrogen_reads_synthesized_partner_witness :
    ((synthZ flatParams ohConn ohAtoms).get? 1).map PAtom.z =
      ((synthZ flatParams ohConn ohAtoms).get? 0).map
        (fun partner => (partner.z + (flatParams.rand 1 - 0.5) * 0.8) * 1.4) :=
  synthZ_hydrogen_reads_synthesized_partner flatParams ohConn ohAtoms 1 0
    { id := ['H', '-', '1'], element := ['H'], x := 1, y := 0, z := 0 }
    (by with_unfolding_all decide) rfl (by with_unfolding_all decide) (by decide)

/-- Adjacency of a single C–C bond. -/
def ccConn : ℕ → List ℕ :=
  fun i => if i = 0 then [1] else if i = 1 then [0] else []

/-- A flat two-atom molecule of two carbons, each of degree 1 — a
combination with no listed geometry rule. -/
def ccAtoms : List PAtom :=
  [{ id := ['C', '-', '1'], element := ['C'], x := 0, y := 0, z := 0 },
   { id := ['C', '-', '2'], element := ['C'], x := 1, y := 0, z := 0 }]

/-- Trigonometric instantiation matching sin/cos at 0 with a jitter draw of
0, so the generic fallback would produce a visible offset. -/
def zeroDrawParams : SynthParams :=
  { sin := fun _ => 0, cos := fun _ => 1, rand := fun _ => 0 }

/-- C3 counterexample: a carbon with exactly 1 neighbor is outside every
listed element/degree case, yet its base z offset is 0 — not the generic
trigonometric fallback, which evaluates to -0.2 at the same point. -/
theorem baseZ_unlisted_carbon_is_zero_not_generic :
    listedCase ['C'] (neighborsOf ccConn ccAtoms 0).length = false ∧
    baseZ zeroDrawParams ccConn ccAtoms 0
      { id := ['C', '-', '1'], element := ['C'], x := 0, y := 0, z := 0 } = 0 ∧
    genericZ zeroDrawParams 0 0 0 = -(1 / 5) ∧
    baseZ zeroDrawParams ccConn ccAtoms 0
        { id := ['C', '-', '1'], element := ['C'], x := 0, y := 0, z := 0 } ≠
      genericZ zeroDrawParams 0 0 0 := by
  refine ⟨by decide, by with_unfolding_all decide, by with_unfolding_all decide,
    by with_unfolding_all decide⟩

/-- C3 amended: the generic trigonometric fallback applies exactly to
elements other than C, N, O and H; a C, N, O or H atom whose degree is not
one of its listed cases gets a base z offset of 0 (so only the ring-strain
term, for degree ≥ 2, can move it). -/
theorem baseZ_fallback_classification
    (p : SynthParams) (conn : ℕ → List ℕ) (cur : List PAtom) (index : ℕ) (atom : PAtom)
    (hun : listedCase atom.element (neighborsOf conn cur index).length = false) :
    (atom.element ∉ [['C'], ['N'], ['O'], ['H']] →
        baseZ p conn cur index atom = genericZ p atom.x atom.y index) ∧
    (atom.element ∈ [['C'], ['N'], ['O'], ['H']] →
        baseZ p conn cur index atom = 0) := by
  constructor
  · intro hne
    simp only [List.mem_cons, List.not_mem_nil, or_false, not_or] at hne
    obtain ⟨h1, h2, h3, h4⟩ := hne
    unfold baseZ
    simp only [if_neg h1, if_neg h2, if_neg h3, if_neg h4]
  · intro hmem
    simp only [List.mem_cons, List.not_mem_nil, or_false] at hmem
    unfold baseZ
    rcases hmem with h | h | h | h
    · simp only [listedCase, h] at hun ⊢
      simp at hun
      simp [hun]
    · simp only [listedCase, h] at hun ⊢
      simp at hun
      simp [hun]
    · simp only [listedCase, h] at hun ⊢
      simp at hun
      simp [hun]
    · simp only [listedCase, h] at hun ⊢
      simp at hun
      simp [hun]

/-- An atom with an element symbol outside the C/N/O/H chain. -/
def xxAtom : PAtom :=
  { id := ['X', 'x', '-', '1'], element := ['X', 'x'], x := 2, y := 3, z := 0 }

/-- C3 amended witness: an unknown element of degree 0 gets the generic
fallback, while a degree-1 carbon gets base offset 0. -/
theorem baseZ_fallback_classification_witness :
    baseZ zeroDrawParams ccConn [] 5 xxAtom = genericZ zeroDrawParams 2 3 5 ∧
    baseZ zeroDrawParams ccConn ccAtoms 0
      { id := ['C', '-', '1'], element := ['C'], x := 0, y := 0, z := 0 } = 0 := by
  constructor
  · exact (baseZ_fallback_classification zeroDrawParams ccConn [] 5 xxAtom
      (by decide)).1 (by decide)
  · exact (baseZ_fallback_classification zeroDrawParams ccConn ccAtoms 0
      { id := ['C', '-', '1'], element := ['C'], x := 0, y := 0, z := 0 }
      (by decide)).2 (by decide)

/-! ## Scene geometry builder

From `canvas-3d.tsx`.  Three.js vectors are exact rational triples;
`Math.sqrt` (used by `Vector3.length`/`normalize`) is a parameter. -/

structure Vec3 where
  x : ℚ
  y : ℚ
  z : ℚ
deriving DecidableEq

instance : Add Vec3 := ⟨fun a b => ⟨a.x + b.x, a.y + b.y, a.z + b.z⟩⟩

instance : Sub Vec3 := ⟨fun a b => ⟨a.x - b.x, a.y - b.y, a.z - b.z⟩⟩

instance : Neg Vec3 := ⟨fun a => ⟨-a.x, -a.y, -a.z⟩⟩

/-- `multiplyScalar`. -/
def smul (c : ℚ) (v : Vec3) : Vec3 := ⟨c * v.x, c * v.y, c * v.z⟩

/-- `Vector3.dot`. -/
def dot (a b : Vec3) : ℚ := a.x * b.x + a.y * b.y + a.z * b.z

/-- `Vector3.cross`. -/
def cross (a b : Vec3) : Vec3 :=
  ⟨a.y * b.z - a.z * b.y, a.z * b.x - a.x * b.z, a.x * b.y - a.y * b.x⟩

/-- The squared length, fed to the `sqrt` parameter. -/
def lengthSq (v : Vec3) : ℚ := v.x * v.x + v.y * v.y + v.z * v.z

/-- `calculateSpacingFactor`: `1 + atomCount / 500`, clamped between 1.0
(no scaling) and 1.8 (80% larger). -/
def calculateSpacingFactor (atomCount : ℕ) : ℚ :=
  let baseFactor : ℚ := 1 + (atomCount : ℚ) / 500
  max 1 (min 1.8 baseFactor)

/-- C2 (confirmed): there is an atom-count threshold (it is 0) up to which
the spacing multiplier is exactly 1.0; above it the multiplier is the
linear `1 + n/500` until the clamp at 400 atoms, it is 1.8 for every count
from 400 on, it is non-decreasing, and it stays within [1.0, 1.8] for all
inputs. -/
theorem calculateSpacingFactor_threshold_linear_clamped :
    (∃ t : ℕ, (∀ n ≤ t, calculateSpacingFactor n = 1) ∧
        (∀ n : ℕ, t < n → n ≤ 400 → calculateSpacingFactor n = 1 + (n : ℚ) / 500) ∧
        (∀ n : ℕ, 400 ≤ n → calculateSpacingFactor n = 1.8)) ∧
    (∀ m n : ℕ, m ≤ n → calculateSpacingFactor m ≤ calculateSpacingFactor n) ∧
    (∀ n : ℕ, 1 ≤ calculateSpacingFactor n ∧ calculateSpacingFactor n ≤ 1.8) := by
  refine ⟨⟨0, ?_, ?_, ?_⟩, ?_, ?_⟩
  · intro n hn
    interval_cases n
    norm_num [calculateSpacingFactor]
  · intro n h0 h400
    have hcast : (n : ℚ) ≤ 400 := by exact_mod_cast h400
    have h1 : (1 : ℚ) ≤ 1 + (n : ℚ) / 500 := by
      have hn : (0 : ℚ) ≤ (n : ℚ) := Nat.cast_nonneg n
      linarith
    have h2 : 1 + (n : ℚ) / 500 ≤ 1.8 := by
      rw [show (1.8 : ℚ) = 9 / 5 by norm_num]
      linarith
    simp only [calculateSpacingFactor]
    rw [min_eq_right h2, max_eq_right h1]
  · intro n h400
    have hcast : (400 : ℚ) ≤ (n : ℚ) := by exact_mod_cast h400
    have h2 : (1.8 : ℚ) ≤ 1 + (n : ℚ) / 500 := by
      rw [show (1.8 : ℚ) = 9 / 5 by norm_num]
      linarith
    simp only [calculateSpacingFactor]
    rw [min_eq_left h2, max_eq_right (by norm_num : (1 : ℚ) ≤ 1.8)]
  · intro m n hmn
    have hcast : (m : ℚ) ≤ (n : ℚ) := by exact_mod_cast hmn
    have hb : 1 + (m : ℚ) / 500 ≤ 1 + (n : ℚ) / 500 := by linarith
    simp only [calculateSpacingFactor]
    exact max_le_max le_rfl (min_le_min le_rfl hb)
  · intro n
    simp only [calculateSpacingFactor]
    refine ⟨le_max_left _ _, max_le (by norm_num) (min_le_left _ _)⟩

/-- C2 witness: concrete values — no scaling at 0 atoms, the clamp value at
400 and beyond, monotone between two sample counts. -/
theorem calculateSpacingFactor_threshold_witness :
    calculateSpacingFactor 0 = 1 ∧ calculateSpacingFactor 400 = 1.8 ∧
    calculateSpacingFactor 100000 = 1.8 ∧
    calculateSpacingFactor 100 ≤ calculateSpacingFactor 200 := by
  obtain ⟨⟨t, h1, h2, h3⟩, hmono, hbounds⟩ := calculateSpacingFactor_threshold_linear_clamped
  exact ⟨h1 0 (Nat.zero_le t), h3 400 le_rfl, h3 100000 (by norm_num),
    hmono 100 200 (by norm_num)⟩

structure GeomParams where
  sqrt : ℚ → ℚ

/-- The bond-type length factor of `createBondGeometry`. -/
def lengthMultiplier : BondType → ℚ
  | .double => 1.4
  | .triple => 1.6
  | .single => 1.2

/-- One rendered bond cylinder: the offset-adjusted axis endpoints (the
mesh sits at their midpoint looking at the end), radius and height
(`adjustedDistance`). -/
structure CylDesc where
  aStart : Vec3
  aEnd : Vec3
  radius : ℚ
  length : ℚ
deriving DecidableEq

/-- `createBondGeometry`: one, two or three parallel cylinders; the length
is the surface-to-surface distance times the bond-type factor, with no
clamping at zero.  The second perpendicular offset of the triple branch is
computed but unused for placement, as in the source. -/
def createBondGeometry (g : GeomParams) (start finish : Vec3) (bondType : BondType)
    (atom1Radius atom2Radius : ℚ) : List CylDesc :=
  let direction := finish - start
  let distance := g.sqrt (lengthSq direction)
  let minAtomRadius := min atom1Radius atom2Radius
  let bondRadius := minAtomRadius * 0.13
  let lm := lengthMultiplier bondType
  let surfaceDistance := distance - atom1Radius - atom2Radius
  let unit := smul (1 / distance) direction
  let adjustedStart := start + smul atom1Radius unit
  let adjustedEnd := finish - smul atom2Radius unit
  let adjustedDistance := surfaceDistance * lm
  match bondType with
  | .single =>
      [{ aStart := adjustedStart, aEnd := adjustedEnd, radius := bondRadius,
         length := adjustedDistance }]
  | .double =>
      let axis := unit
      let perp0 : Vec3 := ⟨0, 0, 1⟩
      let perp := if 0.9 < |dot axis perp0| then (⟨1, 0, 0⟩ : Vec3) else perp0
      let c := cross perp axis
      let offset := smul (bondRadius * 1.5) (smul (1 / g.sqrt (lengthSq c)) c)
      [{ aStart := adjustedStart + offset, aEnd := adjustedEnd + offset,
         radius := bondRadius * 0.8, length := adjustedDistance },
       { aStart := adjustedStart + smul (-1) offset, aEnd := adjustedEnd + smul (-1) offset,
         radius := bondRadius * 0.8, length := adjustedDistance }]
  | .triple =>
      let axis := unit
      let perp0 : Vec3 := ⟨0, 0, 1⟩
      let perp := if 0.9 < |dot axis perp0| then (⟨1, 0, 0⟩ : Vec3) else perp0
      let c1 := cross perp axis
      let offset1 := smul (bondRadius * 1.8) (smul (1 / g.sqrt (lengthSq c1)) c1)
      let offset2 := smul (bondRadius * 1.8) (smul (1 / g.sqrt (lengthSq (cross axis offset1))) (cross axis offset1))
      [{ aStart := adjustedStart, aEnd := adjustedEnd, radius := bondRadius * 0.7,
         length := adjustedDistance },
       { aStart := adjustedStart + offset1, aEnd := adjustedEnd + offset1,
         radius := bondRadius * 0.7, length := adjustedDistance },
       { aStart := adjustedStart + smul (-1) offset1, aEnd := adjustedEnd + smul (-1) offset1,
         radius := bondRadius * 0.7, length := adjustedDistance }]

/-- C10 (confirmed): when the endpoint centers are closer than the sum of
the two render radii, the adjusted cylinder length (surface distance times
the bond-type factor) is negative, and the cylinder descriptors — one, two
or three of them — are still produced carrying that negative length. -/
theorem createBondGeometry_negative_length
    (g : GeomParams) (start finish : Vec3) (bondType : BondType)
    (atom1Radius atom2Radius : ℚ)
    (hclose : g.sqrt (lengthSq (finish - start)) < atom1Radius + atom2Radius) :
    ((g.sqrt (lengthSq (finish - start)) - atom1Radius - atom2Radius) *
        lengthMultiplier bondType < 0) ∧
    createBondGeometry g start finish bondType atom1Radius atom2Radius ≠ [] ∧
    ∀ c ∈ createBondGeometry g start finish bondType atom1Radius atom2Radius,
      c.length = (g.sqrt (lengthSq (finish - start)) - atom1Radius - atom2Radius) *
          lengthMultiplier bondType ∧ c.length < 0 := by
  have hneg : g.sqrt (lengthSq (finish - start)) - atom1Radius - atom2Radius < 0 := by
    linarith
  have hpos : 0 < lengthMultiplier bondType := by
    cases bondType <;> norm_num [lengthMultiplier]
  have hprod := mul_neg_of_neg_of_pos hneg hpos
  refine ⟨hprod, ?_, ?_⟩
  · cases bondType <;> simp [createBondGeometry]
  · intro c hc
    cases bondType <;> simp only [createBondGeometry, List.mem_cons,
      List.not_mem_nil, or_false] at hc
    · subst hc
      exact ⟨rfl, hprod⟩
    · rcases hc with rfl | rfl <;> exact ⟨rfl, hprod⟩
    · rcases hc with rfl | rfl | rfl <;> exact ⟨rfl, hprod⟩

/-- The identity used as `sqrt` in concrete witnesses at points where the
squared length is already its own square root (0 and 1). -/
def idSqrt : GeomParams := { sqrt := fun q => q }

/-- C10 witness: two touching atoms of render radius 0.6 whose centers are
1 apart give a negative single-bond cylinder length, and the descriptor is
still produced. -/
theorem createBondGeometry_negative_length_witness :
    ((idSqrt.sqrt (lengthSq ((⟨1, 0, 0⟩ : Vec3) - (⟨0, 0, 0⟩ : Vec3))) - 0.6 - 0.6) *
        lengthMultiplier .single < 0) ∧
    createBondGeometry idSqrt ⟨0, 0, 0⟩ ⟨1, 0, 0⟩ .single 0.6 0.6 ≠ [] := by
  have h := createBondGeometry_negative_length idSqrt ⟨0, 0, 0⟩ ⟨1, 0, 0⟩ .single 0.6 0.6
    (by with_unfolding_all decide)
  exact ⟨h.1, h.2.1⟩

structure ElementInfo where
  radius : ℚ
  color : List Char
deriving DecidableEq

/-- The `MoleculeData` consumed by the renderer. -/
structure MoleculeData where
  formula : List Char
  elements : List (List Char × ElementInfo)
  atoms : List PAtom
  bonds : List Bond
deriving DecidableEq

/-- `data.elements[el]` (a JS object keyed by element symbol). -/
def lookupElem (elements : List (List Char × ElementInfo)) (el : List Char) :
    Option ElementInfo :=
  (elements.find? fun q => q.1 == el).map fun q => q.2

/-- A rendered atom sphere with its back-references. -/
structure SphereDesc where
  center : Vec3
  radius : ℚ
  color : List Char
  atomIndex : ℕ
  atomId : List Char
  element : List Char
deriving DecidableEq

structure SceneGeometry where
  spheres : List SphereDesc
  cylinders : List CylDesc
deriving DecidableEq

/-- The sphere pass of `renderMolecule`: unknown elements are skipped
(`if (!elementInfo) return`), the render radius is `radius * 0.8`, and the
spacing factor multiplies every coordinate. -/
def sphereOf (elements : List (List Char × ElementInfo)) (spacingFactor : ℚ)
    (index : ℕ) (atom : PAtom) : Option SphereDesc :=
  match lookupElem elements atom.element with
  | none => none
  | some info =>
      some { center := ⟨atom.x * spacingFactor, atom.y * spacingFactor, atom.z * spacingFactor⟩,
             radius := info.radius * 0.8, color := info.color,
             atomIndex := index, atomId := atom.id, element := atom.element }

def buildSpheres (elements : List (List Char × ElementInfo)) (spacingFactor : ℚ)
    (atoms : List PAtom) : List SphereDesc :=
  (atoms.mapIdx fun i a => sphereOf elements spacingFactor i a).reduceOption

/-- The `atomMap` entries: id pointing at the spaced copy
`{ ...atom, position: [x, y, z] }`, recorded only for rendered atoms. -/
def atomMapEntries (elements : List (List Char × ElementInfo)) (spacingFactor : ℚ)
    (atoms : List PAtom) : List (List Char × PAtom) :=
  atoms.filterMap fun a =>
    match lookupElem elements a.element with
    | none => none
    | some _ =>
        some (a.id,
          { a with
              x := a.x * spacingFactor
              y := a.y * spacingFactor
              z := a.z * spacingFactor })

/-- `Map.get` after repeated `Map.set`: the most recent entry wins. -/
def atomMapGet (entries : List (List Char × PAtom)) (k : List Char) : Option PAtom :=
  (entries.reverse.find? fun q => q.1 == k).map fun q => q.2

/-- `data.elements[el]?.radius * 0.8 || 0.4`: missing elements and a falsy
product fall back to 0.4. -/
def renderRadius (elements : List (List Char × ElementInfo)) (el : List Char) : ℚ :=
  match lookupElem elements el with
  | none => 0.4
  | some info => if info.radius * 0.8 = 0 then 0.4 else info.radius * 0.8

/-- The bond pass: skip bonds whose endpoints are missing from the map,
otherwise emit the multiplicity-dependent cylinders. -/
def buildCylinders (g : GeomParams) (elements : List (List Char × ElementInfo))
    (entries : List (List Char × PAtom)) (bonds : List Bond) : List CylDesc :=
  (bonds.map fun bond =>
    match atomMapGet entries bond.atom1, atomMapGet entries bond.atom2 with
    | some a1, some a2 =>
        createBondGeometry g ⟨a1.x, a1.y, a1.z⟩ ⟨a2.x, a2.y, a2.z⟩ bond.type
          (renderRadius elements a1.element) (renderRadius elements a2.element)
    | _, _ => []).join

/-- The primitives of the molecule group before centering. -/
def buildScene (g : GeomParams) (data : MoleculeData) : SceneGeometry :=
  let spacingFactor := calculateSpacingFactor data.atoms.length
  let entries := atomMapEntries data.elements spacingFactor data.atoms
  { spheres := buildSpheres data.elements spacingFactor data.atoms,
    cylinders := buildCylinders g data.elements entries data.bonds }

structure Box3 where
  lo : Vec3
  hi : Vec3
deriving DecidableEq

def vmin (a b : Vec3) : Vec3 := ⟨min a.x b.x, min a.y b.y, min a.z b.z⟩

def vmax (a b : Vec3) : Vec3 := ⟨max a.x b.x, max a.y b.y, max a.z b.z⟩

def mergeBox (a b : Box3) : Box3 := ⟨vmin a.lo b.lo, vmax a.hi b.hi⟩

/-- The axis-aligned box a sphere contributes to `Box3.setFromObject`. -/
def sphereBox (s : SphereDesc) : Box3 :=
  ⟨s.center - ⟨s.radius, s.radius, s.radius⟩, s.center + ⟨s.radius, s.radius, s.radius⟩⟩

/-- The axis-aligned box modelled for a cylinder: the box of its two axis
endpoints grown by its radius.  (three.js derives the exact extent from the
rotated mesh; any per-primitive box that translates with the primitive
supports the centering theorem below.) -/
def cylBox (c : CylDesc) : Box3 :=
  ⟨vmin c.aStart c.aEnd - ⟨c.radius, c.radius, c.radius⟩,
   vmax c.aStart c.aEnd + ⟨c.radius, c.radius, c.radius⟩⟩

def primBoxes (sg : SceneGeometry) : List Box3 :=
  sg.spheres.map sphereBox ++ sg.cylinders.map cylBox

/-- `new THREE.Box3().setFromObject(moleculeGroup)`; `none` for an empty
group. -/
def sceneBox (sg : SceneGeometry) : Option Box3 :=
  match primBoxes sg with
  | [] => none
  | b :: bs => some (bs.foldl mergeBox b)

/-- `box.getCenter` — the zero vector on an empty box, as in three.js. -/
def boxCenter (sg : SceneGeometry) : Vec3 :=
  match sceneBox sg with
  | none => ⟨0, 0, 0⟩
  | some b => smul (1 / 2) (b.lo + b.hi)

def translateSphere (v : Vec3) (s : SphereDesc) : SphereDesc :=
  { s with center := s.center + v }

def translateCyl (v : Vec3) (c : CylDesc) : CylDesc :=
  { c with aStart := c.aStart + v, aEnd := c.aEnd + v }

/-- `moleculeGroup.position.sub(center)`: the whole group is translated. -/
def translateScene (v : Vec3) (sg : SceneGeometry) : SceneGeometry :=
  { spheres := sg.spheres.map (translateSphere v),
    cylinders := sg.cylinders.map (translateCyl v) }

/-- `renderMolecule`, restricted to the geometry it derives: build the
primitives, then recenter the group at the origin by subtracting the
bounding-box center.  (Labels and camera state carry no molecule
geometry.) -/
def renderMolecule (g : GeomParams) (data : MoleculeData) : SceneGeometry :=
  let raw := buildScene g data
  translateScene (-(boxCenter raw)) raw

/-- State-passing form of `renderMolecule`: it returns the model as the
call leaves it.  Every write in the source targets objects created inside
the call (the spheres, cylinder meshes, the fresh `moleculeGroup`, and the
`atomMap` copies `{ ...atom, position: [x, y, z] }`); `data` itself is only
read, so the post-state is the input model unchanged. -/
def renderMoleculeSt (g : GeomParams) (data : MoleculeData) :
    SceneGeometry × MoleculeData :=
  (renderMolecule g data, data)

/-- C7 (confirmed): the geometry builder leaves the `MoleculeData` it is
given unchanged (spacing is applied to derived copies only), and a second
invocation on the model coming out of the first produces the identical
scene geometry — same sphere placements, radii and cylinders. -/
theorem renderMolecule_pure_and_idempotent (g : GeomParams) (data : MoleculeData) :
    (renderMoleculeSt g data).2 = data ∧
    (renderMoleculeSt g ((renderMoleculeSt g data).2)).1 = (renderMoleculeSt g data).1 :=
  ⟨rfl, rfl⟩

def translateBox (v : Vec3) (b : Box3) : Box3 := ⟨b.lo + v, b.hi + v⟩

theorem vec3_add_def (a b : Vec3) : a + b = ⟨a.x + b.x, a.y + b.y, a.z + b.z⟩ := rfl

theorem vec3_sub_def (a b : Vec3) : a - b = ⟨a.x - b.x, a.y - b.y, a.z - b.z⟩ := rfl

theorem vec3_neg_def (a : Vec3) : -a = (⟨-a.x, -a.y, -a.z⟩ : Vec3) := rfl

theorem vec3_ext {a b : Vec3} (hx : a.x = b.x) (hy : a.y = b.y) (hz : a.z = b.z) :
    a = b := by
  cases a
  cases b
  simp only at hx hy hz
  rw [hx, hy, hz]

theorem box3_ext {a b : Box3} (hlo : a.lo = b.lo) (hhi : a.hi = b.hi) : a = b := by
  cases a
  cases b
  simp only at hlo hhi
  rw [hlo, hhi]

theorem vmin_add_right (a b v : Vec3) : vmin (a + v) (b + v) = vmin a b + v := by
  refine vec3_ext ?_ ?_ ?_ <;>
    simp [vmin, vec3_add_def, min_add_add_right]

theorem vmax_add_right (a b v : Vec3) : vmax (a + v) (b + v) = vmax a b + v := by
  refine vec3_ext ?_ ?_ ?_ <;>
    simp [vmax, vec3_add_def, max_add_add_right]

theorem sphereBox_translate (v : Vec3) (s : SphereDesc) :
    sphereBox (translateSphere v s) = translateBox v (sphereBox s) := by
  refine box3_ext ?_ ?_ <;> refine vec3_ext ?_ ?_ ?_ <;>
    (simp [sphereBox, translateSphere, translateBox, vec3_add_def, vec3_sub_def]; ring)

theorem cylBox_translate (v : Vec3) (c : CylDesc) :
    cylBox (translateCyl v c) = translateBox v (cylBox c) := by
  refine box3_ext ?_ ?_ <;> refine vec3_ext ?_ ?_ ?_ <;>
    (simp [cylBox, translateCyl, translateBox, vmin_add_right, vmax_add_right,
       vmin, vmax, vec3_add_def, vec3_sub_def, min_add_add_right, max_add_add_right]; ring)

theorem mergeBox_translate (v : Vec3) (a b : Box3) :
    mergeBox (translateBox v a) (translateBox v b) = translateBox v (mergeBox a b) := by
  simp only [mergeBox, translateBox, vmin_add_right, vmax_add_right]

theorem foldl_mergeBox_translate (v : Vec3) (bs : List Box3) (b : Box3) :
    (bs.map (translateBox v)).foldl mergeBox (translateBox v b) =
      translateBox v (bs.foldl mergeBox b) := by
  induction bs generalizing b with
  | nil => rfl
  | cons hd tl ih =>
      simp only [List.map_cons, List.foldl_cons, mergeBox_translate]
      exact ih _

theorem primBoxes_translate (v : Vec3) (sg : SceneGeometry) :
    primBoxes (translateScene v sg) = (primBoxes sg).map (translateBox v) := by
  simp only [primBoxes, translateScene, List.map_append, List.map_map]
  congr 1
  · exact List.map_congr_left fun s _ => sphereBox_translate v s
  · exact List.map_congr_left fun c _ => cylBox_translate v c

theorem sceneBox_translate (v : Vec3) (sg : SceneGeometry) :
    sceneBox (translateScene v sg) = (sceneBox sg).map (translateBox v) := by
  unfold sceneBox
  rw [primBoxes_translate]
  cases primBoxes sg with
  | nil => rfl
  | cons b bs =>
      simp only [List.map_cons, Option.map_some']
      rw [foldl_mergeBox_translate]

theorem boxCenter_translate (v : Vec3) (sg : SceneGeometry)
    (hne : primBoxes sg ≠ []) : boxCenter (translateScene v sg) = boxCenter sg + v := by
  unfold boxCenter
  rw [sceneBox_translate]
  unfold sceneBox
  cases hp : primBoxes sg with
  | nil => exact absurd hp hne
  | cons b bs =>
      simp only [Option.map_some']
      refine vec3_ext ?_ ?_ ?_ <;>
        (simp [translateBox, smul, vec3_add_def]; ring)

/-- C8 (confirmed): after the centering step, the bounding-box center of
the assembled scene — all atom spheres and bond cylinders, with every
per-primitive box translating along with its primitive — is exactly the
origin whenever the scene is non-empty. -/
theorem renderMolecule_centered_at_origin (g : GeomParams) (data : MoleculeData)
    (hne : primBoxes (buildScene g data) ≠ []) :
    boxCenter (renderMolecule g data) = ⟨0, 0, 0⟩ := by
  unfold renderMolecule
  rw [boxCenter_translate _ _ hne]
  refine vec3_ext ?_ ?_ ?_ <;>
    (simp [vec3_add_def, vec3_neg_def])

/-- A one-atom molecule with a known element. -/
def oneAtomData : MoleculeData :=
  { formula := ['O'],
    elements := [(['O'], { radius := 0.4, color := ['g', 'r', 'e', 'y'] })],
    atoms := [{ id := ['O', '-', '1'], element := ['O'], x := 3, y := 4, z := 5 }],
    bonds := [] }

/-- C8 witness: the concrete one-atom scene is recentered exactly at the
origin. -/
theorem renderMolecule_centered_at_origin_witness :
    boxCenter (renderMolecule idSqrt oneAtomData) = ⟨0, 0, 0⟩ :=
  renderMolecule_centered_at_origin idSqrt oneAtomData (by with_unfolding_all decide)
